import Mathlib

/-!
Verification development for the pip-reroller repository (src/app/app.py).

The Python source is shallowly embedded: frames are lists of rows of
3-channel pixels, numpy arithmetic on channel values becomes integer
arithmetic, rectangles are integer 4-tuples (x, y, w, h), and the stateful
GUI methods become pure state-transition functions.  External collaborators
(OpenCV morphology and contour extraction, the AHK window query, Python's
int() builtin) are passed in as parameters of the embedded functions.
-/

namespace PipReroller

/-- A 3-channel colour sample in BGR channel order, as captured frames and
reference colours in `app.py` are.  Channel values are modelled as integers
(the code widens `uint8` data to `int16` before subtracting, so no modular
wraparound occurs). -/
structure Pixel where
  b : ℤ
  g : ℤ
  r : ℤ
deriving DecidableEq, Repr

/-- Per-channel absolute difference, embedding `np.abs(frame.astype(np.int16) - color_bgr)`
at one pixel of `rank_mask`. -/
def absDiff (p c : Pixel) : Pixel :=
  ⟨|p.b - c.b|, |p.g - c.g|, |p.r - c.r|⟩

/-- Embeds `np.all(diff <= tolerance, axis=2)` at one pixel of `rank_mask`:
true iff every channel of `d` is at most `tol`. -/
def allLe (d : Pixel) (tol : ℤ) : Bool :=
  decide (d.b ≤ tol) && decide (d.g ≤ tol) && decide (d.r ≤ tol)

/-- Embedding of `PipRerollerApp.rank_mask` (app.py lines 999-1019):
`diff = np.abs(frame.astype(np.int16) - color_bgr)` followed by
`mask = np.all(diff <= tolerance, axis=2).astype(np.uint8) * 255`.
The frame is a list of rows of pixels; the result has a `0`/`255` entry per
pixel. -/
def rank_mask (frame : List (List Pixel)) (color_bgr : Pixel) (tolerance : ℤ) :
    List (List ℕ) :=
  frame.map (fun row =>
    row.map (fun p => (if allLe (absDiff p color_bgr) tolerance then 1 else 0) * 255))

/-- The per-channel colour-window membership predicate the spec describes:
the pixel is within `tol` of the reference colour on every channel
simultaneously. -/
def specWithin (p c : Pixel) (tol : ℤ) : Prop :=
  |p.b - c.b| ≤ tol ∧ |p.g - c.g| ≤ tol ∧ |p.r - c.r| ≤ tol

instance (p c : Pixel) (tol : ℤ) : Decidable (specWithin p c tol) := by
  unfold specWithin; infer_instance

/-- Number of mask pixels marked as belonging (value 255). -/
def maskCount (mask : List (List ℕ)) : ℕ :=
  (mask.map (fun row => row.countP (fun v => v == 255))).sum

/-- An axis-aligned rectangle (x, y, w, h) as produced by `cv2.boundingRect`
and consumed by `merge_rectangles`; integer pixel coordinates. -/
structure Rect where
  x : ℤ
  y : ℤ
  w : ℤ
  h : ℤ
deriving DecidableEq, Repr

/-- Horizontal component of the nested `rect_distance` (app.py lines
1055-1062): the horizontal gap when one rectangle lies strictly beyond the
other on the x axis, and 0 otherwise.  The `right` branch is tested first,
as in the source (`if right: ... elif left: ...`). -/
def rectDx (r1 r2 : Rect) : ℤ :=
  if r1.x + r1.w < r2.x then r2.x - (r1.x + r1.w)
  else if r2.x + r2.w < r1.x then r1.x - (r2.x + r2.w)
  else 0

/-- Vertical component of `rect_distance` (app.py lines 1064-1071). -/
def rectDy (r1 r2 : Rect) : ℤ :=
  if r1.y + r1.h < r2.y then r2.y - (r1.y + r1.h)
  else if r2.y + r2.h < r1.y then r1.y - (r2.y + r2.h)
  else 0

/-- The square of the edge-to-edge distance of two rectangles: the integer
core of `rect_distance`.  `merge_rectangles` compares
`np.hypot(dx, dy) <= max_distance`, which for the non-negative integer
`max_distance` used by the caller is equivalent to
`dx^2 + dy^2 <= max_distance^2` (`rect_distance_le_coe_iff`). -/
def rectDistSq (r1 r2 : Rect) : ℤ :=
  rectDx r1 r2 ^ 2 + rectDy r1 r2 ^ 2

/-- Embedding of the nested `rect_distance` (app.py lines 1038-1074),
`np.hypot(dx, dy)`: the Euclidean length of the integer gap vector. -/
noncomputable def rect_distance (r1 r2 : Rect) : ℝ :=
  Real.sqrt ((rectDx r1 r2 : ℝ) ^ 2 + (rectDy r1 r2 : ℝ) ^ 2)

/-- The spec's horizontal gap between nearest edges: 0 when the x-axis
projections overlap or touch, otherwise the distance between the facing
vertical edges. -/
def xGap (r1 r2 : Rect) : ℤ :=
  max 0 (max (r2.x - (r1.x + r1.w)) (r1.x - (r2.x + r2.w)))

/-- The spec's vertical gap between nearest edges. -/
def yGap (r1 r2 : Rect) : ℤ :=
  max 0 (max (r2.y - (r1.y + r1.h)) (r1.y - (r2.y + r2.h)))

/-- The x-axis projections of the two rectangles overlap or touch. -/
def xProjTouch (r1 r2 : Rect) : Bool :=
  decide (r1.x ≤ r2.x + r2.w) && decide (r2.x ≤ r1.x + r1.w)

/-- The y-axis projections of the two rectangles overlap or touch. -/
def yProjTouch (r1 r2 : Rect) : Bool :=
  decide (r1.y ≤ r2.y + r2.h) && decide (r2.y ≤ r1.y + r1.h)

/-- The running `merged_rect = [min_x, min_y, max_x, max_y]` bounds of a
group in `merge_rectangles`. -/
structure Bounds where
  minX : ℤ
  minY : ℤ
  maxX : ℤ
  maxY : ℤ
deriving DecidableEq, Repr

/-- `merged_rect` as initialised from the group's seed rectangle,
`[x, y, x + w, y + h]` (app.py line 1082). -/
def boundsOf (r : Rect) : Bounds := ⟨r.x, r.y, r.x + r.w, r.y + r.h⟩

/-- Folding one close-enough rectangle into the group's envelope
(app.py lines 1092-1096). -/
def absorb (b : Bounds) (r : Rect) : Bounds :=
  ⟨min b.minX r.x, min b.minY r.y, max b.maxX (r.x + r.w), max b.maxY (r.y + r.h)⟩

/-- Conversion of the final bounds back to (x, y, w, h) format
(app.py lines 1100-1102). -/
def toRect (b : Bounds) : Rect :=
  ⟨b.minX, b.minY, b.maxX - b.minX, b.maxY - b.minY⟩

/-- The inner `for j in range(i + 1, len(rects))` scan of
`merge_rectangles`: every remaining rectangle within `max_distance` of the
group's seed `r` (the distance is always measured from the seed, not from
the grown envelope, as in the source) is folded into the envelope and
consumed; the others are kept, in order, for later groups. -/
def collectGroup (r : Rect) (max_distance : ℕ) :
    List Rect → Bounds → Bounds × List Rect
  | [], b => (b, [])
  | rj :: rest, b =>
    if rectDistSq r rj ≤ (max_distance : ℤ) ^ 2 then
      collectGroup r max_distance rest (absorb b rj)
    else
      ((collectGroup r max_distance rest b).1,
        rj :: (collectGroup r max_distance rest b).2)

/-- The outer loop of `merge_rectangles`: each unconsumed rectangle seeds a
group, scans the later rectangles, and emits the group's envelope.  The
`used` array of the source is embedded by passing only the unconsumed
remainder to the recursive call; the fuel argument (instantiated with the
list length, which the scan never increases) makes the recursion
structural. -/
def mergeAux (max_distance : ℕ) : ℕ → List Rect → List Rect
  | 0, _ => []
  | _ + 1, [] => []
  | fuel + 1, r :: rest =>
    toRect (collectGroup r max_distance rest (boundsOf r)).1 ::
      mergeAux max_distance fuel (collectGroup r max_distance rest (boundsOf r)).2

/-- Embedding of `PipRerollerApp.merge_rectangles` (app.py lines
1021-1103). -/
def merge_rectangles (rects : List Rect) (max_distance : ℕ) : List Rect :=
  mergeAux max_distance rects.length rects

/-- One detected pip, as the dicts appended by `detect_and_classify`:
rank identifier, bounding rectangle and the rank's reference colour
(carried for display). -/
structure DetObj where
  rank : String
  rect : Rect
  cv2color : Pixel
deriving DecidableEq, Repr

/-- Stable insertion used to model Python's stable `list.sort(key=...)`:
the new element goes after every element whose key is less than or equal to
its own, so elements with equal keys keep their arrival order. -/
def insertSorted {α : Type} (key : α → ℤ) (x : α) : List α → List α
  | [] => [x]
  | y :: ys => if key y ≤ key x then y :: insertSorted key x ys else x :: y :: ys

/-- Model of Python's stable in-place `list.sort(key=...)` (ascending by
`key`): elements are inserted in arrival order, each after all elements
with a key less than or equal to its own. -/
def stableSort {α : Type} (key : α → ℤ) (l : List α) : List α :=
  l.foldl (fun acc x => insertSorted key x acc) []

/-- The per-rank pipeline of `detect_and_classify` (app.py lines 978-994),
concatenated over the rank table in table order: for each `(rank, bgr)`
entry, build the rank's mask, hand it to `extractRects` — which stands for
the external OpenCV stages `cv2.morphologyEx` (closing), `cv2.findContours`,
the `cv2.contourArea(c) > 1` filter and `cv2.boundingRect` —, merge the
resulting rectangles, and emit one detection per merged rectangle. -/
def perRankDetections (ranks : List (String × Pixel))
    (extractRects : List (List ℕ) → List Rect) (frame : List (List Pixel))
    (tolerance : ℤ) (object_tolerance : ℕ) : List DetObj :=
  (ranks.map (fun rb =>
    (merge_rectangles (extractRects (rank_mask frame rb.2 tolerance))
        object_tolerance).map
      (fun rect => ⟨rb.1, rect, rb.2⟩))).flatten

/-- Embedding of `PipRerollerApp.detect_and_classify` (app.py lines
964-997): the concatenated per-rank detections, stable-sorted by
`key=lambda o: -RANK_ORDER[o['rank']]` (Python's `list.sort` is stable).
`RANK_ORDER` (defined in `app/constants.py`, not part of src/) is passed in
as the function `rankOrder`. -/
def detect_and_classify (ranks : List (String × Pixel)) (rankOrder : String → ℤ)
    (extractRects : List (List ℕ) → List Rect) (frame : List (List Pixel))
    (tolerance : ℤ) (object_tolerance : ℕ) : List DetObj :=
  stableSort (fun o => -(rankOrder o.rank))
    (perRankDetections ranks extractRects frame tolerance object_tolerance)

/-- A rank-count snapshot as returned by
`ImageProcessor.get_current_rank_counts`: a Python dict embedded as an
association list of (rank, count) pairs in iteration order.
`pyDictGet c k d` is `c.get(k, d)`. -/
def pyDictGet (c : List (String × ℕ)) (k : String) (d : ℕ) : ℕ :=
  (List.lookup k c).getD d

/-- The eligible-object count computed from one snapshot (app.py lines
1205-1208): `sum(count for rank, count in current_counts.items()
if RANK_ORDER[rank] >= min_rank_idx)`.  `RANK_ORDER` (from
`app/constants.py`, not part of src/) is passed in as `rankOrder`. -/
def eligibleCount (rankOrder : String → ℤ) (min_rank_idx : ℤ)
    (c : List (String × ℕ)) : ℕ :=
  ((c.filter (fun rc => decide (min_rank_idx ≤ rankOrder rc.1))).map
    (fun rc => rc.2)).sum

/-- The `stopped_from_condition` flag computed when `reroll_loop`
(app.py lines 1122-1244) exits, as a function of the observations of one
run: `completed` is the sequence of snapshots read at line 1203 by the loop
iterations that ran to completion (an iteration that exits at the top wait
or at one of the two mid-cycle checkpoints never reaches that line), and
`final` is the snapshot read after the loop at line 1227.  `ss_count` and
`filtered_count` start at 0 (lines 1145-1146) and are overwritten from each
completed iteration's snapshot (lines 1203-1208); after the loop only
`ss_count` is re-read, from the final snapshot (line 1228), while
`filtered_count` keeps its last-iteration value, and the flag is
`(min_objects > 0 and filtered_count >= min_objects) or
(stop_at_ss > 0 and ss_count >= stop_at_ss)` (lines 1232-1235). -/
def reroll_loop_exit_flag (rankOrder : String → ℤ) (min_rank_idx : ℤ)
    (min_objects stop_at_ss : ℕ) (completed : List (List (String × ℕ)))
    (final : List (String × ℕ)) : Bool :=
  let st := completed.foldl
    (fun _ c => (pyDictGet c "SS" 0, eligibleCount rankOrder min_rank_idx c))
    ((0 : ℕ), (0 : ℕ))
  let ss_count := pyDictGet final "SS" 0
  decide ((0 < min_objects ∧ min_objects ≤ st.2) ∨
    (0 < stop_at_ss ∧ stop_at_ss ≤ ss_count))

/-- Modelled from the spec: the §4.3 stop condition evaluated on one
snapshot — (`stop-at-top-count` > 0 AND `topCount` ≥ `stop-at-top-count`)
OR (`eligible` ≥ `minimum-object-count`), with `stop-at-top-count = 0`
disabling its clause; the single highest rank is "SS".  (The detection
poller that evaluates this condition lives in `app/processor.py`, which is
not among the repository files under src/.) -/
def specStopCondition (rankOrder : String → ℤ) (min_rank_idx : ℤ)
    (min_objects stop_at_ss : ℕ) (c : List (String × ℕ)) : Bool :=
  decide ((0 < stop_at_ss ∧ stop_at_ss ≤ pyDictGet c "SS" 0) ∨
    (min_objects ≤ eligibleCount rankOrder min_rank_idx c))

/-- The operator-controlled integer settings stored on the app
(app.py lines 150-155). -/
structure Settings where
  tolerance : ℤ
  stop_at_ss : ℤ
  min_objects : ℤ
  click_delay_ms : ℤ
  post_reroll_delay_ms : ℤ
  image_poll_delay_ms : ℤ
  object_tolerance : ℤ
deriving DecidableEq, Repr

/-- Embedding of `update_tolerance` (app.py lines 493-509).  The result of
Python's `int()` on the entry text is passed in as `parsed` (`none` when
`int()` raises `ValueError`, which the `except ValueError: pass` of the
source swallows); totality of the function models that the updater never
raises. -/
def update_tolerance (s : Settings) (parsed : Option ℤ) : Settings :=
  match parsed with
  | none => s
  | some val => if 0 ≤ val ∧ val ≤ 255 then { s with tolerance := val } else s

/-- Embedding of `update_stop_at` (app.py lines 511-527): stores `val` when
`val >= 0`. -/
def update_stop_at (s : Settings) (parsed : Option ℤ) : Settings :=
  match parsed with
  | none => s
  | some val => if 0 ≤ val then { s with stop_at_ss := val } else s

/-- Embedding of `update_min_objects` (app.py lines 529-546): stores `val`
when `val >= 1`. -/
def update_min_objects (s : Settings) (parsed : Option ℤ) : Settings :=
  match parsed with
  | none => s
  | some val => if 1 ≤ val then { s with min_objects := val } else s

/-- Embedding of `update_click_delay` (app.py lines 548-565): stores `val`
when `val >= 0`. -/
def update_click_delay (s : Settings) (parsed : Option ℤ) : Settings :=
  match parsed with
  | none => s
  | some val => if 0 ≤ val then { s with click_delay_ms := val } else s

/-- Embedding of `update_post_reroll_delay` (app.py lines 567-584). -/
def update_post_reroll_delay (s : Settings) (parsed : Option ℤ) : Settings :=
  match parsed with
  | none => s
  | some val => if 0 ≤ val then { s with post_reroll_delay_ms := val } else s

/-- Embedding of `update_image_poll_delay` (app.py lines 586-603). -/
def update_image_poll_delay (s : Settings) (parsed : Option ℤ) : Settings :=
  match parsed with
  | none => s
  | some val => if 0 ≤ val then { s with image_poll_delay_ms := val } else s

/-- Embedding of `update_object_tolerance` (app.py lines 605-622). -/
def update_object_tolerance (s : Settings) (parsed : Option ℤ) : Settings :=
  match parsed with
  | none => s
  | some val => if 0 ≤ val then { s with object_tolerance := val } else s

/-- The spec's validated field update: store the parsed value when it
passes the field's validation, otherwise (failed parse or failed
validation) retain the previous value. -/
def specFieldUpdate (valid : ℤ → Bool) (old : ℤ) (parsed : Option ℤ) : ℤ :=
  match parsed with
  | none => old
  | some v => if valid v then v else old

/-- The slice of `PipRerollerApp` state that `start_running_async` reads
and writes: the configured capture region and the two click points, the
target window title, the `running` flag, the `stop_reroll_event`
`threading.Event` (as a Bool: `true` when set), and whether the two worker
threads are currently alive. -/
structure AppState where
  game_area : Option (ℤ × ℤ × ℤ × ℤ)
  chisel_button_pos : Option (ℤ × ℤ)
  buy_button_pos : Option (ℤ × ℤ)
  game_window_title : String
  running : Bool
  stop_reroll_event : Bool
  image_processor_alive : Bool
  reroll_alive : Bool
deriving DecidableEq, Repr

/-- Result of one `start_running_async` call: the new state, the message
written to `message_var`, and whether a new ImageProcessor thread and a new
reroll-loop thread were started. -/
structure StartResult where
  state : AppState
  message : Option String
  started_image_processor : Bool
  started_reroll : Bool
deriving DecidableEq, Repr

/-- All run-start preconditions hold: capture region and both click points
configured, target window title non-empty, and the window reported to
exist by the input-injection collaborator. -/
def startPreconds (winExists : String → Bool) (s : AppState) : Bool :=
  s.game_area.isSome && s.chisel_button_pos.isSome && s.buy_button_pos.isSome &&
    !(s.game_window_title == "") && winExists s.game_window_title

/-- Embedding of `start_running_async` (app.py lines 782-838).  The AHK
`win_exists` query is passed in as `winExists`; window activation, the
0.1-second sleep and the GUI status-label update have no effect on the
modelled state.  On success the stop event is cleared before any thread
starts, and a thread is started only when no corresponding thread is alive
(`if thread is None or not thread.is_alive()`).  The window-not-found
message paraphrases the f-string of line 813. -/
def start_running_async (winExists : String → Bool) (s : AppState) : StartResult :=
  if s.game_area = none then
    ⟨s, some "Please select area first.", false, false⟩
  else if s.chisel_button_pos = none then
    ⟨s, some "Please set Chisel Button first.", false, false⟩
  else if s.buy_button_pos = none then
    ⟨s, some "Please set Buy Button first.", false, false⟩
  else if s.game_window_title = "" then
    ⟨s, some "Please enter a Game Window Title.", false, false⟩
  else if winExists s.game_window_title then
    ⟨{ s with
        running := true
        stop_reroll_event := false
        image_processor_alive := true
        reroll_alive := true },
      some "Game window activated. Starting reroll.",
      !s.image_processor_alive, !s.reroll_alive⟩
  else
    ⟨s, some ("Error: Game window " ++ s.game_window_title ++
      " not found. Please ensure it is open."), false, false⟩

/-- The reset pass of `update_rank_counts_gui` (app.py lines 886-887):
`for rank in self.rank_count_vars: self.rank_counts[rank] = 0`.  The
`rank_counts` dict is embedded as a function from rank identifiers to
counts; `table` lists the rank table's identifiers. -/
def resetCounts (table : List String) (counts : String → ℕ) : String → ℕ :=
  table.foldl (fun m r => fun k => if k = r then 0 else m k) counts

/-- One increment `self.rank_counts[obj['rank']] += 1`
(app.py lines 889-890). -/
def bumpCount (m : String → ℕ) (k : String) : String → ℕ :=
  fun r => if r = k then m k + 1 else m r

/-- Embedding of `update_rank_counts_gui` (app.py lines 873-894): caches
the detected-object list in `last_detected_objs`, resets every rank of the
table to 0 and counts the detected objects by rank.  Returns the new
`rank_counts` mapping and the new `last_detected_objs`. -/
def update_rank_counts_gui (table : List String) (counts : String → ℕ)
    (detected_objs : List DetObj) : (String → ℕ) × List DetObj :=
  (detected_objs.foldl (fun m o => bumpCount m o.rank) (resetCounts table counts),
    detected_objs)

/- ------------------------------------------------------------------ -/
/- Helper lemmas (shared)                                              -/
/- ------------------------------------------------------------------ -/

theorem getD_map_of_lt {α β : Type} (f : α → β) (l : List α) (i : ℕ)
    (d : β) (d0 : α) (h : i < l.length) :
    (l.map f).getD i d = f (l.getD i d0) := by
  induction l generalizing i with
  | nil => simp at h
  | cons a t ih =>
    cases i with
    | zero => simp
    | succ n =>
      simp only [List.map_cons, List.getD_cons_succ]
      exact ih n (by simpa using h)

theorem countP_le_countP_of_imp {α : Type} (p q : α → Bool) (l : List α)
    (h : ∀ a ∈ l, p a = true → q a = true) :
    l.countP p ≤ l.countP q := by
  induction l with
  | nil => simp
  | cons a t ih =>
    have hind := ih (fun x hx => h x (List.mem_cons_of_mem a hx))
    have ha := h a (List.mem_cons_self a t)
    simp only [List.countP_cons]
    by_cases h1 : p a = true
    · rw [if_pos h1, if_pos (ha h1)]
      omega
    · rw [if_neg h1]
      by_cases h2 : q a = true
      · rw [if_pos h2]; omega
      · rw [if_neg h2]; omega

/- ------------------------------------------------------------------ -/
/- Claim theorems                                                      -/
/- ------------------------------------------------------------------ -/

/-- C1: For every frame, reference colour and tolerance, the mask produced
by `rank_mask` marks a pixel as belonging (value 255) iff on every one of
the three colour channels simultaneously the absolute difference between
the pixel's channel value and the reference colour's channel value is at
most the tolerance (a per-channel conjunction), and every entry of the
mask is either 255 or 0, so all non-member pixels are 0. -/
theorem rank_mask_membership (frame : List (List Pixel)) (color : Pixel)
    (tol : ℤ) (i j : ℕ) (hi : i < frame.length)
    (hj : j < (frame.getD i []).length) :
    (((rank_mask frame color tol).getD i []).getD j 0 = 255 ↔
      specWithin ((frame.getD i []).getD j ⟨0, 0, 0⟩) color tol) ∧
    (((rank_mask frame color tol).getD i []).getD j 0 = 255 ∨
      ((rank_mask frame color tol).getD i []).getD j 0 = 0) := by
  have houter : (rank_mask frame color tol).getD i [] =
      (frame.getD i []).map
        (fun p => (if allLe (absDiff p color) tol then 1 else 0) * 255) := by
    unfold rank_mask
    exact getD_map_of_lt _ frame i [] [] hi
  have hinner : ((rank_mask frame color tol).getD i []).getD j 0 =
      (if allLe (absDiff ((frame.getD i []).getD j ⟨0, 0, 0⟩) color) tol then 1 else 0) * 255 := by
    rw [houter]
    exact getD_map_of_lt _ (frame.getD i []) j 0 ⟨0, 0, 0⟩ hj
  rw [hinner]
  have hiff : allLe (absDiff ((frame.getD i []).getD j ⟨0, 0, 0⟩) color) tol = true ↔
      specWithin ((frame.getD i []).getD j ⟨0, 0, 0⟩) color tol := by
    simp [allLe, absDiff, specWithin, and_assoc]
  by_cases hb : allLe (absDiff ((frame.getD i []).getD j ⟨0, 0, 0⟩) color) tol = true
  · rw [if_pos hb]
    exact ⟨⟨fun _ => hiff.mp hb, fun _ => by norm_num⟩, Or.inl (by norm_num)⟩
  · rw [if_neg hb]
    exact ⟨⟨fun h255 => absurd h255 (by norm_num), fun hw => absurd (hiff.mpr hw) hb⟩,
      Or.inr (by norm_num)⟩

theorem rank_mask_membership_witness :
    (0 < ([[(⟨10, 10, 10⟩ : Pixel)]] : List (List Pixel)).length ∧
      0 < (([[(⟨10, 10, 10⟩ : Pixel)]] : List (List Pixel)).getD 0 []).length) ∧
    ((((rank_mask [[⟨10, 10, 10⟩]] ⟨12, 9, 10⟩ 3).getD 0 []).getD 0 0 = 255 ↔
      specWithin (([[(⟨10, 10, 10⟩ : Pixel)]].getD 0 []).getD 0 ⟨0, 0, 0⟩) ⟨12, 9, 10⟩ 3) ∧
    (((rank_mask [[⟨10, 10, 10⟩]] ⟨12, 9, 10⟩ 3).getD 0 []).getD 0 0 = 255 ∨
      ((rank_mask [[⟨10, 10, 10⟩]] ⟨12, 9, 10⟩ 3).getD 0 []).getD 0 0 = 0)) :=
  ⟨⟨by decide, by decide⟩,
    rank_mask_membership [[⟨10, 10, 10⟩]] ⟨12, 9, 10⟩ 3 0 0 (by decide) (by decide)⟩

/-- C6: For every frame, reference colour and tolerances `t1 ≤ t2`, the
number of pixels marked by `rank_mask` at tolerance `t1` is at most the
number marked at tolerance `t2`: increasing the colour tolerance never
decreases the matched pixel count of a rank's mask. -/
theorem rank_mask_tolerance_mono (frame : List (List Pixel)) (color : Pixel)
    (t1 t2 : ℤ) (h : t1 ≤ t2) :
    maskCount (rank_mask frame color t1) ≤ maskCount (rank_mask frame color t2) := by
  unfold maskCount rank_mask
  induction frame with
  | nil => simp
  | cons row rest ih =>
    simp only [List.map_cons, List.sum_cons, List.map_map]
    have hrow : (row.map (fun p => (if allLe (absDiff p color) t1 then 1 else 0) * 255)).countP
          (fun v => v == 255) ≤
        (row.map (fun p => (if allLe (absDiff p color) t2 then 1 else 0) * 255)).countP
          (fun v => v == 255) := by
      rw [List.countP_map, List.countP_map]
      apply countP_le_countP_of_imp
      intro p _ hp
      simp only [Function.comp] at hp ⊢
      by_cases h1 : allLe (absDiff p color) t1 = true
      · have h2 : allLe (absDiff p color) t2 = true := by
          simp only [allLe, Bool.and_eq_true, decide_eq_true_eq] at h1 ⊢
          omega
        simp [h2]
      · simp [h1] at hp
    have hrest := ih
    simp only [List.map_map] at hrest
    omega

theorem rectDx_eq_xGap (r1 r2 : Rect) (hw1 : 0 ≤ r1.w) (hw2 : 0 ≤ r2.w) :
    rectDx r1 r2 = xGap r1 r2 := by
  unfold rectDx xGap
  split_ifs with h1 h2 <;> omega

theorem rectDy_eq_yGap (r1 r2 : Rect) (hh1 : 0 ≤ r1.h) (hh2 : 0 ≤ r2.h) :
    rectDy r1 r2 = yGap r1 r2 := by
  unfold rectDy yGap
  split_ifs with h1 h2 <;> omega

theorem rectDx_eq_zero_iff (r1 r2 : Rect) :
    rectDx r1 r2 = 0 ↔ xProjTouch r1 r2 = true := by
  unfold rectDx xProjTouch
  simp only [Bool.and_eq_true, decide_eq_true_eq]
  split_ifs with h1 h2 <;> omega

theorem rectDy_eq_zero_iff (r1 r2 : Rect) :
    rectDy r1 r2 = 0 ↔ yProjTouch r1 r2 = true := by
  unfold rectDy yProjTouch
  simp only [Bool.and_eq_true, decide_eq_true_eq]
  split_ifs with h1 h2 <;> omega

/-- The float comparison of `merge_rectangles` against the integer
`max_distance` coincides with the integer comparison of the squared
distances: this justifies the integer test in `collectGroup`. -/
theorem rect_distance_le_coe_iff (r1 r2 : Rect) (m : ℕ) :
    rect_distance r1 r2 ≤ (m : ℝ) ↔ rectDistSq r1 r2 ≤ (m : ℤ) ^ 2 := by
  unfold rect_distance rectDistSq
  rw [Real.sqrt_le_left (by positivity : (0 : ℝ) ≤ (m : ℝ))]
  constructor
  · intro h; exact_mod_cast h
  · intro h; exact_mod_cast h

theorem toRect_boundsOf (r : Rect) : toRect (boundsOf r) = r := by
  simp [toRect, boundsOf]

theorem collectGroup_far (r : Rect) (maxD : ℕ) (l : List Rect) :
    ∀ b : Bounds, (∀ rj ∈ l, (maxD : ℤ) ^ 2 < rectDistSq r rj) →
      collectGroup r maxD l b = (b, l) := by
  induction l with
  | nil => intro b _; simp [collectGroup]
  | cons rj rest ih =>
    intro b h
    have h1 := h rj (List.mem_cons_self rj rest)
    have hrest := fun x hx => h x (List.mem_cons_of_mem rj hx)
    simp only [collectGroup, if_neg (not_le.mpr h1)]
    rw [ih b hrest]

theorem mergeAux_far (maxD : ℕ) (l : List Rect) :
    ∀ n : ℕ, l.length ≤ n →
      l.Pairwise (fun a b => (maxD : ℤ) ^ 2 < rectDistSq a b) →
      mergeAux maxD n l = l := by
  induction l with
  | nil => intro n _ _; cases n <;> simp [mergeAux]
  | cons r rest ih =>
    intro n hn hp
    cases n with
    | zero => simp at hn
    | succ m =>
      have hp1 : ∀ x ∈ rest, (maxD : ℤ) ^ 2 < rectDistSq r x :=
        (List.pairwise_cons.mp hp).1
      have hp2 := (List.pairwise_cons.mp hp).2
      simp only [mergeAux]
      rw [collectGroup_far r maxD rest (boundsOf r) hp1]
      simp only []
      rw [toRect_boundsOf, ih m (by simpa using hn) hp2]

theorem rank_mask_tolerance_mono_witness :
    ((1 : ℤ) ≤ 3) ∧
    maskCount (rank_mask [[⟨10, 10, 10⟩, ⟨13, 10, 10⟩]] ⟨12, 9, 10⟩ 1) ≤
      maskCount (rank_mask [[⟨10, 10, 10⟩, ⟨13, 10, 10⟩]] ⟨12, 9, 10⟩ 3) :=
  ⟨by decide, rank_mask_tolerance_mono [[⟨10, 10, 10⟩, ⟨13, 10, 10⟩]] ⟨12, 9, 10⟩ 1 3 (by decide)⟩

/-- C2: For every pair of axis-aligned rectangles (x, y, width, height)
with non-negative width and height, the distance computed by
`rect_distance` equals the hypotenuse of the horizontal gap and the
vertical gap between their nearest edges; each gap is 0 exactly when the
projections on that axis overlap or touch, and the distance is 0 exactly
when the rectangles overlap or touch on both axes. -/
theorem rect_distance_spec (r1 r2 : Rect) (hw1 : 0 ≤ r1.w) (hh1 : 0 ≤ r1.h)
    (hw2 : 0 ≤ r2.w) (hh2 : 0 ≤ r2.h) :
    rect_distance r1 r2 =
      Real.sqrt ((xGap r1 r2 : ℝ) ^ 2 + (yGap r1 r2 : ℝ) ^ 2) ∧
    (rect_distance r1 r2 = 0 ↔ (xProjTouch r1 r2 && yProjTouch r1 r2) = true) ∧
    (xGap r1 r2 = 0 ↔ xProjTouch r1 r2 = true) ∧
    (yGap r1 r2 = 0 ↔ yProjTouch r1 r2 = true) := by
  have hx := rectDx_eq_xGap r1 r2 hw1 hw2
  have hy := rectDy_eq_yGap r1 r2 hh1 hh2
  refine ⟨?_, ?_, ?_, ?_⟩
  · unfold rect_distance
    rw [hx, hy]
  · unfold rect_distance
    rw [Real.sqrt_eq_zero']
    constructor
    · intro hle
      have hx2 : (0 : ℝ) ≤ (rectDx r1 r2 : ℝ) ^ 2 := sq_nonneg _
      have hy2 : (0 : ℝ) ≤ (rectDy r1 r2 : ℝ) ^ 2 := sq_nonneg _
      have hdx0 : (rectDx r1 r2 : ℝ) ^ 2 = 0 := le_antisymm (by linarith) hx2
      have hdy0 : (rectDy r1 r2 : ℝ) ^ 2 = 0 := le_antisymm (by linarith) hy2
      have hdx : rectDx r1 r2 = 0 := by
        have := (pow_eq_zero_iff (by norm_num : (2 : ℕ) ≠ 0)).mp hdx0
        exact_mod_cast this
      have hdy : rectDy r1 r2 = 0 := by
        have := (pow_eq_zero_iff (by norm_num : (2 : ℕ) ≠ 0)).mp hdy0
        exact_mod_cast this
      rw [Bool.and_eq_true]
      exact ⟨(rectDx_eq_zero_iff r1 r2).mp hdx,
        (rectDy_eq_zero_iff r1 r2).mp hdy⟩
    · intro ht
      rw [Bool.and_eq_true] at ht
      have hdx := (rectDx_eq_zero_iff r1 r2).mpr ht.1
      have hdy := (rectDy_eq_zero_iff r1 r2).mpr ht.2
      rw [hdx, hdy]
      norm_num
  · rw [← hx]
    exact rectDx_eq_zero_iff r1 r2
  · rw [← hy]
    exact rectDy_eq_zero_iff r1 r2

theorem rect_distance_spec_witness :
    ((0 : ℤ) ≤ (⟨0, 0, 4, 4⟩ : Rect).w ∧ (0 : ℤ) ≤ (⟨0, 0, 4, 4⟩ : Rect).h ∧
      (0 : ℤ) ≤ (⟨5, 0, 4, 4⟩ : Rect).w ∧ (0 : ℤ) ≤ (⟨5, 0, 4, 4⟩ : Rect).h) ∧
    (rect_distance ⟨0, 0, 4, 4⟩ ⟨5, 0, 4, 4⟩ =
      Real.sqrt ((xGap ⟨0, 0, 4, 4⟩ ⟨5, 0, 4, 4⟩ : ℝ) ^ 2 +
        (yGap ⟨0, 0, 4, 4⟩ ⟨5, 0, 4, 4⟩ : ℝ) ^ 2) ∧
    (rect_distance ⟨0, 0, 4, 4⟩ ⟨5, 0, 4, 4⟩ = 0 ↔
      (xProjTouch ⟨0, 0, 4, 4⟩ ⟨5, 0, 4, 4⟩ && yProjTouch ⟨0, 0, 4, 4⟩ ⟨5, 0, 4, 4⟩) = true) ∧
    (xGap ⟨0, 0, 4, 4⟩ ⟨5, 0, 4, 4⟩ = 0 ↔ xProjTouch ⟨0, 0, 4, 4⟩ ⟨5, 0, 4, 4⟩ = true) ∧
    (yGap ⟨0, 0, 4, 4⟩ ⟨5, 0, 4, 4⟩ = 0 ↔ yProjTouch ⟨0, 0, 4, 4⟩ ⟨5, 0, 4, 4⟩ = true)) :=
  ⟨⟨by decide, by decide, by decide, by decide⟩,
    rect_distance_spec ⟨0, 0, 4, 4⟩ ⟨5, 0, 4, 4⟩ (by decide) (by decide) (by decide) (by decide)⟩

/-- C3: Two input rectangles merge exactly when their edge-to-edge distance
is at most `max_distance` (so a distance of exactly `max_distance` merges,
and a larger distance does not); the first conjunct ties the real distance
comparison of the source to the integer test.  In particular,
`[(0,0,4,4), (5,0,4,4)]` with `max_distance = 1` merges to `[(0,0,9,4)]`,
and with `max_distance = 0` stays two separate rectangles. -/
theorem merge_rectangles_two (r1 r2 : Rect) (maxD : ℕ) :
    (rect_distance r1 r2 ≤ (maxD : ℝ) ↔ rectDistSq r1 r2 ≤ (maxD : ℤ) ^ 2) ∧
    merge_rectangles [r1, r2] maxD =
      (if rectDistSq r1 r2 ≤ (maxD : ℤ) ^ 2 then
        [⟨min r1.x r2.x, min r1.y r2.y,
          max (r1.x + r1.w) (r2.x + r2.w) - min r1.x r2.x,
          max (r1.y + r1.h) (r2.y + r2.h) - min r1.y r2.y⟩]
      else [r1, r2]) ∧
    merge_rectangles [⟨0, 0, 4, 4⟩, ⟨5, 0, 4, 4⟩] 1 = [⟨0, 0, 9, 4⟩] ∧
    merge_rectangles [⟨0, 0, 4, 4⟩, ⟨5, 0, 4, 4⟩] 0 =
      [⟨0, 0, 4, 4⟩, ⟨5, 0, 4, 4⟩] := by
  refine ⟨rect_distance_le_coe_iff r1 r2 maxD, ?_, by decide, by decide⟩
  by_cases hd : rectDistSq r1 r2 ≤ (maxD : ℤ) ^ 2
  · rw [if_pos hd]
    simp [merge_rectangles, mergeAux, collectGroup, hd, absorb, boundsOf, toRect]
  · rw [if_neg hd]
    simp [merge_rectangles, mergeAux, collectGroup, hd, boundsOf, toRect]

/-- C5 counterexample: `merge_rectangles` is not idempotent.  On the input
`[(0,0,1,1), (3,0,1,1), (2,0,1,1)]` with `max_distance = 1` the first pass
merges the first and third rectangles into `(0,0,3,1)` (the middle one is
farther than 1 from the seed), leaving `(3,0,1,1)` touching that envelope,
so a second pass merges again. -/
theorem merge_rectangles_not_idempotent :
    merge_rectangles (merge_rectangles [⟨0, 0, 1, 1⟩, ⟨3, 0, 1, 1⟩, ⟨2, 0, 1, 1⟩] 1) 1 ≠
      merge_rectangles [⟨0, 0, 1, 1⟩, ⟨3, 0, 1, 1⟩, ⟨2, 0, 1, 1⟩] 1 := by
  decide

/-- C5 (amended): a merge pass returns its input unchanged whenever the
input rectangles are pairwise strictly farther apart than `max_distance`;
in particular a merged output is a fixed point only under that condition —
in general re-merging an output can merge further, because the greedy pass
can emit envelopes that lie within `max_distance` of each other
(`merge_rectangles_not_idempotent`). -/
theorem merge_rectangles_fixed_of_pairwise_far (L : List Rect) (maxD : ℕ)
    (h : L.Pairwise (fun a b => (maxD : ℤ) ^ 2 < rectDistSq a b)) :
    merge_rectangles L maxD = L :=
  mergeAux_far maxD L L.length le_rfl h

theorem merge_rectangles_fixed_of_pairwise_far_witness :
    (([⟨0, 0, 1, 1⟩, ⟨10, 0, 1, 1⟩] : List Rect).Pairwise
      (fun a b => ((1 : ℕ) : ℤ) ^ 2 < rectDistSq a b)) ∧
    merge_rectangles [⟨0, 0, 1, 1⟩, ⟨10, 0, 1, 1⟩] 1 = [⟨0, 0, 1, 1⟩, ⟨10, 0, 1, 1⟩] :=
  ⟨by decide, merge_rectangles_fixed_of_pairwise_far [⟨0, 0, 1, 1⟩, ⟨10, 0, 1, 1⟩] 1 (by decide)⟩

theorem mem_insertSorted {α : Type} (key : α → ℤ) (x : α) (l : List α) (a : α) :
    a ∈ insertSorted key x l ↔ a = x ∨ a ∈ l := by
  induction l with
  | nil => simp [insertSorted]
  | cons y ys ih =>
    simp only [insertSorted]
    by_cases h : key y ≤ key x
    · rw [if_pos h]
      simp only [List.mem_cons, ih]
      tauto
    · rw [if_neg h]
      simp [List.mem_cons]

theorem pairwise_insertSorted {α : Type} (key : α → ℤ) (x : α) (l : List α)
    (h : l.Pairwise (fun a b => key a ≤ key b)) :
    (insertSorted key x l).Pairwise (fun a b => key a ≤ key b) := by
  induction l with
  | nil => simp [insertSorted]
  | cons y ys ih =>
    rcases List.pairwise_cons.mp h with ⟨hy, hys⟩
    simp only [insertSorted]
    by_cases hxy : key y ≤ key x
    · rw [if_pos hxy]
      refine List.pairwise_cons.mpr ⟨?_, ih hys⟩
      intro z hz
      rcases (mem_insertSorted key x ys z).mp hz with rfl | hzys
      · exact hxy
      · exact hy z hzys
    · rw [if_neg hxy]
      refine List.pairwise_cons.mpr ⟨?_, h⟩
      intro z hz
      rcases List.mem_cons.mp hz with rfl | hzys
      · exact le_of_lt (not_le.mp hxy)
      · exact le_trans (le_of_lt (not_le.mp hxy)) (hy z hzys)

theorem filter_insertSorted {α : Type} (key : α → ℤ) (k : ℤ) (x : α) (l : List α)
    (h : l.Pairwise (fun a b => key a ≤ key b)) :
    (insertSorted key x l).filter (fun a => decide (key a = k)) =
      if key x = k then l.filter (fun a => decide (key a = k)) ++ [x]
      else l.filter (fun a => decide (key a = k)) := by
  induction l with
  | nil =>
    by_cases hk : key x = k
    · simp [insertSorted, hk]
    · simp [insertSorted, hk]
  | cons y ys ih =>
    rcases List.pairwise_cons.mp h with ⟨hy, hys⟩
    simp only [insertSorted]
    by_cases hxy : key y ≤ key x
    · rw [if_pos hxy]
      by_cases hyk : key y = k
      · rw [List.filter_cons_of_pos (by simp [hyk]), ih hys]
        by_cases hk : key x = k
        · rw [if_pos hk, if_pos hk, List.filter_cons_of_pos (by simp [hyk])]
          simp
        · rw [if_neg hk, if_neg hk, List.filter_cons_of_pos (by simp [hyk])]
      · rw [List.filter_cons_of_neg (by simp [hyk]), ih hys]
        by_cases hk : key x = k
        · rw [if_pos hk, if_pos hk, List.filter_cons_of_neg (by simp [hyk])]
        · rw [if_neg hk, if_neg hk, List.filter_cons_of_neg (by simp [hyk])]
    · rw [if_neg hxy]
      have hxlt : key x < key y := not_le.mp hxy
      by_cases hk : key x = k
      · rw [if_pos hk, List.filter_cons_of_pos (by simp [hk])]
        have hnil : (y :: ys).filter (fun a => decide (key a = k)) = [] := by
          rw [List.filter_eq_nil_iff]
          intro a ha
          rcases List.mem_cons.mp ha with rfl | hays
          · simp only [decide_eq_true_eq]
            omega
          · have hya := hy a hays
            simp only [decide_eq_true_eq]
            omega
        rw [hnil]
        simp
      · rw [if_neg hk, List.filter_cons_of_neg (by simp [hk])]

theorem foldl_insertSorted_pairwise {α : Type} (key : α → ℤ) (l : List α) :
    ∀ acc : List α, acc.Pairwise (fun a b => key a ≤ key b) →
      (l.foldl (fun acc x => insertSorted key x acc) acc).Pairwise
        (fun a b => key a ≤ key b) := by
  induction l with
  | nil => intro acc h; simpa using h
  | cons x xs ih =>
    intro acc h
    simp only [List.foldl_cons]
    exact ih _ (pairwise_insertSorted key x acc h)

theorem stableSort_pairwise {α : Type} (key : α → ℤ) (l : List α) :
    (stableSort key l).Pairwise (fun a b => key a ≤ key b) :=
  foldl_insertSorted_pairwise key l [] (by simp)

theorem foldl_insertSorted_filter {α : Type} (key : α → ℤ) (k : ℤ) (l : List α) :
    ∀ acc : List α, acc.Pairwise (fun a b => key a ≤ key b) →
      (l.foldl (fun acc x => insertSorted key x acc) acc).filter
          (fun a => decide (key a = k)) =
        acc.filter (fun a => decide (key a = k)) ++
          l.filter (fun a => decide (key a = k)) := by
  induction l with
  | nil => intro acc _; simp
  | cons x xs ih =>
    intro acc h
    simp only [List.foldl_cons]
    rw [ih _ (pairwise_insertSorted key x acc h), filter_insertSorted key k x acc h]
    by_cases hk : key x = k
    · rw [if_pos hk, List.filter_cons_of_pos (by simp [hk])]
      simp
    · rw [if_neg hk, List.filter_cons_of_neg (by simp [hk])]

theorem stableSort_filter {α : Type} (key : α → ℤ) (k : ℤ) (l : List α) :
    (stableSort key l).filter (fun a => decide (key a = k)) =
      l.filter (fun a => decide (key a = k)) := by
  have h := foldl_insertSorted_filter key k l [] (by simp)
  simpa [stableSort] using h

/-- C7: For every rank table, rank-order function, contour extractor, frame
and settings, the list returned by `detect_and_classify` is the per-rank
detection lists concatenated (`perRankDetections`) and then stable-sorted
by descending rank ordinal: every object of a higher-ordinal rank precedes
every object of a lower-ordinal rank (the `Pairwise` conjunct), and for
each ordinal value the objects of that ordinal appear exactly as they do in
the concatenated detection order (the filter conjunct — equal ranks keep
their relative emission order). -/
theorem detect_and_classify_sorted (ranks : List (String × Pixel))
    (rankOrder : String → ℤ) (extractRects : List (List ℕ) → List Rect)
    (frame : List (List Pixel)) (tolerance : ℤ) (object_tolerance : ℕ) :
    (detect_and_classify ranks rankOrder extractRects frame tolerance
        object_tolerance).Pairwise
      (fun a b => rankOrder b.rank ≤ rankOrder a.rank) ∧
    ∀ k : ℤ,
      (detect_and_classify ranks rankOrder extractRects frame tolerance
          object_tolerance).filter (fun o => decide (rankOrder o.rank = k)) =
        (perRankDetections ranks extractRects frame tolerance
            object_tolerance).filter (fun o => decide (rankOrder o.rank = k)) := by
  constructor
  · have h := stableSort_pairwise (fun o : DetObj => -(rankOrder o.rank))
      (perRankDetections ranks extractRects frame tolerance object_tolerance)
    unfold detect_and_classify
    exact h.imp (fun hab => by omega)
  · intro k
    unfold detect_and_classify
    have hpred : (fun o : DetObj => decide (rankOrder o.rank = k)) =
        (fun o : DetObj => decide (-(rankOrder o.rank) = -k)) := by
      funext o
      exact decide_eq_decide.mpr (by omega)
    rw [hpred]
    exact stableSort_filter (fun o : DetObj => -(rankOrder o.rank)) (-k)
      (perRankDetections ranks extractRects frame tolerance object_tolerance)

theorem foldl_const_getLast {β γ : Type} (g : γ → β) (l : List γ) :
    ∀ init : β, l.foldl (fun _ c => g c) init =
      (match l.getLast? with
       | some c => g c
       | none => init) := by
  induction l with
  | nil => intro init; rfl
  | cons c cs ih =>
    intro init
    simp only [List.foldl_cons]
    rw [ih (g c)]
    cases cs with
    | nil => rfl
    | cons d ds =>
      rw [List.getLast?_cons_cons]
      cases hL : (d :: ds).getLast? with
      | none => simp at hL
      | some x => rfl

theorem map_congr_mem {α β : Type} (l : List α) (f g : α → β)
    (h : ∀ a ∈ l, f a = g a) : l.map f = l.map g := by
  induction l with
  | nil => rfl
  | cons a t ih =>
    simp only [List.map_cons]
    rw [h a (List.mem_cons_self a t), ih (fun x hx => h x (List.mem_cons_of_mem a hx))]

theorem sum_map_add_nat {α : Type} (f g : α → ℕ) (l : List α) :
    (l.map (fun a => f a + g a)).sum = (l.map f).sum + (l.map g).sum := by
  induction l with
  | nil => rfl
  | cons a t ih =>
    simp only [List.map_cons, List.sum_cons, ih]
    omega

theorem sum_indicator_zero (ts : List String) (k : String) (hk : k ∉ ts) :
    (ts.map (fun r => if k = r then (1 : ℕ) else 0)).sum = 0 := by
  induction ts with
  | nil => rfl
  | cons t ts ih =>
    have h1 : k ≠ t := fun h => hk (h ▸ List.mem_cons_self t ts)
    have h2 : k ∉ ts := fun h => hk (List.mem_cons_of_mem t h)
    simp [h1, ih h2]

theorem sum_indicator_of_nodup (table : List String) (k : String)
    (hnd : table.Nodup) (hk : k ∈ table) :
    (table.map (fun r => if k = r then (1 : ℕ) else 0)).sum = 1 := by
  induction table with
  | nil => simp at hk
  | cons t ts ih =>
    rcases List.nodup_cons.mp hnd with ⟨htn, hts⟩
    by_cases h : k = t
    · subst h
      have hz := sum_indicator_zero ts k htn
      simp [hz]
    · have hk2 : k ∈ ts := by
        rcases List.mem_cons.mp hk with h1 | h1
        · exact absurd h1 h
        · exact h1
      simp [h, ih hts hk2]

theorem sum_counts_eq_length (table : List String) (hnd : table.Nodup)
    (objs : List DetObj) (hmem : ∀ o ∈ objs, o.rank ∈ table) :
    (table.map (fun r => objs.countP (fun o => decide (o.rank = r)))).sum =
      objs.length := by
  induction objs with
  | nil => simp
  | cons o os ih =>
    have hos : ∀ x ∈ os, x.rank ∈ table :=
      fun x hx => hmem x (List.mem_cons_of_mem o hx)
    have ho : o.rank ∈ table := hmem o (List.mem_cons_self o os)
    simp only [List.countP_cons, List.length_cons, decide_eq_true_eq]
    rw [sum_map_add_nat (fun r => os.countP (fun x => decide (x.rank = r)))
      (fun r => if o.rank = r then 1 else 0) table]
    rw [ih hos, sum_indicator_of_nodup table o.rank hnd ho]

theorem resetCounts_not_mem (table : List String) :
    ∀ (counts : String → ℕ) (r : String), r ∉ table →
      resetCounts table counts r = counts r := by
  induction table with
  | nil => intro counts r _; rfl
  | cons t ts ih =>
    intro counts r hr
    have h1 : r ≠ t := fun h => hr (h ▸ List.mem_cons_self t ts)
    have h2 : r ∉ ts := fun h => hr (List.mem_cons_of_mem t h)
    simp only [resetCounts, List.foldl_cons]
    have hrec := ih (fun k => if k = t then 0 else counts k) r h2
    simp only [resetCounts] at hrec
    rw [hrec]
    simp [h1]

theorem resetCounts_mem (table : List String) :
    ∀ (counts : String → ℕ) (r : String), r ∈ table →
      resetCounts table counts r = 0 := by
  induction table with
  | nil => intro _ r hr; simp at hr
  | cons t ts ih =>
    intro counts r hr
    by_cases h2 : r ∈ ts
    · simp only [resetCounts, List.foldl_cons]
      have hrec := ih (fun k => if k = t then 0 else counts k) r h2
      simpa [resetCounts] using hrec
    · have h1 : r = t := by
        rcases List.mem_cons.mp hr with h | h
        · exact h
        · exact absurd h h2
      simp only [resetCounts, List.foldl_cons]
      have hrec := resetCounts_not_mem ts (fun k => if k = t then 0 else counts k) r h2
      simp only [resetCounts] at hrec
      rw [hrec]
      simp [h1]

theorem foldl_bumpCount (objs : List DetObj) :
    ∀ (m : String → ℕ) (r : String),
      (objs.foldl (fun m o => bumpCount m o.rank) m) r =
        m r + objs.countP (fun o => decide (o.rank = r)) := by
  induction objs with
  | nil => intro m r; simp
  | cons o os ih =>
    intro m r
    simp only [List.foldl_cons, List.countP_cons]
    rw [ih (bumpCount m o.rank) r]
    by_cases h : o.rank = r
    · have hb : bumpCount m o.rank r = m r + 1 := by
        unfold bumpCount
        rw [if_pos h.symm, congrArg m h]
      rw [hb]
      simp [h]
      omega
    · have hb : bumpCount m o.rank r = m r := by
        unfold bumpCount
        rw [if_neg (fun hh => h hh.symm)]
      rw [hb]
      simp [h]

/-- C4 counterexample: the claim says the reported stopped-from-condition
flag equals the stop-condition test re-evaluated against the final snapshot.
When the loop exits before completing any iteration (empty `completed`
sequence, e.g. the stop event was set during the first clicks) and the
final snapshot holds 5 eligible objects with `min_objects = 1` and
`stop_at_ss = 0`, the code reports `false` (its `filtered_count` still
holds the initial 0) while the re-evaluated stop condition is `true`. -/
theorem reroll_exit_flag_ne_spec :
    reroll_loop_exit_flag (fun r => if r = "SS" then 6 else 0) 0 1 0 []
        [("SS", 0), ("F", 5)] ≠
      specStopCondition (fun r => if r = "SS" then 6 else 0) 0 1 0
        [("SS", 0), ("F", 5)] := by
  decide

/-- C4 (amended): the flag reported on loop exit equals
`(min_objects > 0 AND min_objects ≤ eligible count of the snapshot read by
the last completed loop iteration, 0 if no iteration completed) OR
(stop_at_ss > 0 AND stop_at_ss ≤ SS count of the final snapshot)`: only the
top-rank clause is re-evaluated against the final rank-count snapshot; the
eligible clause reuses the last completed iteration's value. -/
theorem reroll_exit_flag_eq (rankOrder : String → ℤ) (min_rank_idx : ℤ)
    (min_objects stop_at_ss : ℕ) (completed : List (List (String × ℕ)))
    (final : List (String × ℕ)) :
    reroll_loop_exit_flag rankOrder min_rank_idx min_objects stop_at_ss
        completed final =
      decide ((0 < min_objects ∧ min_objects ≤
          (match completed.getLast? with
           | some c => eligibleCount rankOrder min_rank_idx c
           | none => 0)) ∨
        (0 < stop_at_ss ∧ stop_at_ss ≤ pyDictGet final "SS" 0)) := by
  have h := foldl_const_getLast
    (fun c => (pyDictGet c "SS" 0, eligibleCount rankOrder min_rank_idx c))
    completed ((0 : ℕ), (0 : ℕ))
  cases hL : completed.getLast? with
  | none =>
    rw [hL] at h
    simp only [reroll_loop_exit_flag, h, hL]
  | some c =>
    rw [hL] at h
    simp only [reroll_loop_exit_flag, h, hL]

/-- C8: For every previous settings state and every parse result of the
entry text (`none` models `int()` raising `ValueError`), each of the seven
settings updaters stores the parsed value exactly when it is an integer
inside the field's valid range (0-255 for the colour tolerance, ≥ 1 for the
minimum object count, ≥ 0 for the delays, the stop-at count and the object
tolerance) and otherwise leaves the previous stored value unchanged
(`specFieldUpdate`); each updater is a total function, modelling that no
input raises an exception. -/
theorem settings_updaters_validate (s : Settings) (p : Option ℤ) :
    (update_tolerance s p).tolerance =
      specFieldUpdate (fun v => decide (0 ≤ v ∧ v ≤ 255)) s.tolerance p ∧
    (update_stop_at s p).stop_at_ss =
      specFieldUpdate (fun v => decide (0 ≤ v)) s.stop_at_ss p ∧
    (update_min_objects s p).min_objects =
      specFieldUpdate (fun v => decide (1 ≤ v)) s.min_objects p ∧
    (update_click_delay s p).click_delay_ms =
      specFieldUpdate (fun v => decide (0 ≤ v)) s.click_delay_ms p ∧
    (update_post_reroll_delay s p).post_reroll_delay_ms =
      specFieldUpdate (fun v => decide (0 ≤ v)) s.post_reroll_delay_ms p ∧
    (update_image_poll_delay s p).image_poll_delay_ms =
      specFieldUpdate (fun v => decide (0 ≤ v)) s.image_poll_delay_ms p ∧
    (update_object_tolerance s p).object_tolerance =
      specFieldUpdate (fun v => decide (0 ≤ v)) s.object_tolerance p := by
  cases p with
  | none => exact ⟨rfl, rfl, rfl, rfl, rfl, rfl, rfl⟩
  | some v =>
    refine ⟨?_, ?_, ?_, ?_, ?_, ?_, ?_⟩ <;>
      simp only [update_tolerance, update_stop_at, update_min_objects,
        update_click_delay, update_post_reroll_delay, update_image_poll_delay,
        update_object_tolerance, specFieldUpdate, decide_eq_true_eq] <;>
      split_ifs <;> rfl

/-- C9: `start_running_async` is a precondition-guarded start.  When any
precondition fails (capture region unset, chisel or buy point unset, empty
target-window title, or the window-exists query reporting false) the state
is returned unchanged — in particular a previously-false running flag stays
false and the cancellation event `stop_reroll_event` keeps its previous
value (remains unset in Scenario D) — and no thread is started.  Only when
all preconditions hold is the cancellation event cleared, the running flag
set, and each worker thread started (a thread already alive is not started
again).  A message is surfaced in every case, in particular in every
failure case. -/
theorem start_running_async_spec (winExists : String → Bool) (s : AppState) :
    (start_running_async winExists s).state =
      (if startPreconds winExists s then
        { s with
            running := true
            stop_reroll_event := false
            image_processor_alive := true
            reroll_alive := true }
      else s) ∧
    (start_running_async winExists s).started_image_processor =
      (startPreconds winExists s && !s.image_processor_alive) ∧
    (start_running_async winExists s).started_reroll =
      (startPreconds winExists s && !s.reroll_alive) ∧
    (start_running_async winExists s).message.isSome = true := by
  obtain ⟨ga, ch, bu, ti, ru, se, ia, ra⟩ := s
  cases ga <;> cases ch <;> cases bu <;>
    by_cases hti : ti = "" <;>
    by_cases hwe : winExists ti = true <;>
    simp_all [start_running_async, startPreconds]

/-- C10: For every rank table without duplicate identifiers, every previous
counts mapping and every detected-object list whose ranks are drawn from
the table, after `update_rank_counts_gui` runs the published count of each
table rank equals the number of objects of that rank in the list, the sum
of the counts over the table equals the length of the list, and the cached
`last_detected_objs` is exactly the list passed in — the published counts
and the cached object list are mutually consistent. -/
theorem update_rank_counts_gui_spec (table : List String) (counts : String → ℕ)
    (objs : List DetObj) (hnd : table.Nodup)
    (hmem : ∀ o ∈ objs, o.rank ∈ table) :
    table.map (update_rank_counts_gui table counts objs).1 =
      table.map (fun r => objs.countP (fun o => decide (o.rank = r))) ∧
    (table.map (update_rank_counts_gui table counts objs).1).sum = objs.length ∧
    (update_rank_counts_gui table counts objs).2 = objs := by
  have hmap : table.map (update_rank_counts_gui table counts objs).1 =
      table.map (fun r => objs.countP (fun o => decide (o.rank = r))) := by
    apply map_congr_mem
    intro r hr
    show (update_rank_counts_gui table counts objs).1 r =
      objs.countP (fun o => decide (o.rank = r))
    have hfst : (update_rank_counts_gui table counts objs).1 =
        objs.foldl (fun m o => bumpCount m o.rank) (resetCounts table counts) := rfl
    rw [hfst, foldl_bumpCount objs (resetCounts table counts) r,
      resetCounts_mem table counts r hr, Nat.zero_add]
  refine ⟨hmap, ?_, rfl⟩
  rw [hmap]
  exact sum_counts_eq_length table hnd objs hmem

theorem update_rank_counts_gui_spec_witness :
    (["F", "SS"] : List String).map
        (update_rank_counts_gui ["F", "SS"] (fun _ => 7)
          [⟨"F", ⟨0, 0, 1, 1⟩, ⟨0, 0, 0⟩⟩]).1 =
      (["F", "SS"] : List String).map
        (fun r => ([⟨"F", ⟨0, 0, 1, 1⟩, ⟨0, 0, 0⟩⟩] : List DetObj).countP
          (fun o => decide (o.rank = r))) ∧
    ((["F", "SS"] : List String).map
        (update_rank_counts_gui ["F", "SS"] (fun _ => 7)
          [⟨"F", ⟨0, 0, 1, 1⟩, ⟨0, 0, 0⟩⟩]).1).sum =
      ([⟨"F", ⟨0, 0, 1, 1⟩, ⟨0, 0, 0⟩⟩] : List DetObj).length ∧
    (update_rank_counts_gui ["F", "SS"] (fun _ => 7)
        [⟨"F", ⟨0, 0, 1, 1⟩, ⟨0, 0, 0⟩⟩]).2 =
      [⟨"F", ⟨0, 0, 1, 1⟩, ⟨0, 0, 0⟩⟩] :=
  update_rank_counts_gui_spec ["F", "SS"] (fun _ => 7)
    [⟨"F", ⟨0, 0, 1, 1⟩, ⟨0, 0, 0⟩⟩] (by decide) (by decide)

end PipReroller
